import Mathlib

/-!
Shallow embedding of the sales-aggregation pipeline of `src/DataChart.jsx`,
together with proofs of its specified properties.

CSV rows arrive from Papa.parse with header-based access, so every field of
a row is a string (a missing field is modelled as the empty string, which is
falsy in JavaScript exactly like `undefined` for the guards the code uses).
JavaScript numbers are modelled exactly: integers as `Int`, decimal
quantities as `Rat`.  `parseInt` / `parseFloat` are modelled on base-10
decimal literals (optional leading whitespace, optional sign, digits, and
for `parseFloat` an optional fraction part), returning `none` where
JavaScript returns `NaN`; `toLowerCase` is modelled as per-character
lowering, and `localeCompare`-based string sorting as the lexicographic
order on strings.
-/

/-- One parsed CSV row, with the seven columns the pipeline reads
(`SUPPLIER`, `ITEM DESCRIPTION`, `YEAR`, `MONTH`, `RETAIL SALES`,
`WAREHOUSE SALES`, `RETAIL TRANSFERS`). -/
structure SalesRecord where
  supplier : String
  itemDescription : String
  year : String
  month : String
  retailSales : String
  warehouseSales : String
  retailTransfers : String
  deriving Repr, DecidableEq

/-- The `filterType` state: `'supplier'` or `'item'`. -/
inductive FilterKind where
  | supplier
  | item
  deriving Repr, DecidableEq

/-- A `{year, month}` pair as held in the `startDate` / `endDate` state. -/
structure DateCursor where
  year : Int
  month : Int
  deriving Repr, DecidableEq

/-- Base-10 digits folded into a number, most significant first. -/
def digitsToNat (ds : List Char) : Nat :=
  ds.foldl (fun n c => 10 * n + (c.toNat - '0'.toNat)) 0

/-- Splits an optional leading sign off a character list. -/
def splitSign : List Char → Int × List Char
  | '-' :: rest => (-1, rest)
  | '+' :: rest => (1, rest)
  | cs => (1, cs)

/-- Model of JavaScript `parseInt(s)` on base-10 inputs: skip leading
whitespace, read an optional sign and then a maximal run of digits;
`none` models `NaN` (no digit found). -/
def parseIntJS (s : String) : Option Int :=
  let cs := s.data.dropWhile (·.isWhitespace)
  let (sign, cs) := splitSign cs
  let ds := cs.takeWhile (·.isDigit)
  if ds.isEmpty then none else some (sign * (digitsToNat ds : Int))

/-- The discrete content of a decimal literal: sign, integer digits,
fraction digits and the number of fraction digits. -/
structure FloatParts where
  sign : Int
  intPart : Nat
  fracPart : Nat
  fracLen : Nat
  deriving Repr, DecidableEq

/-- Scanner part of JavaScript `parseFloat(s)` on plain decimal inputs:
skip leading whitespace, read an optional sign, a run of integer digits
and an optional `.` followed by fraction digits; `none` models `NaN`
(not a single digit found). -/
def parseFloatParts (s : String) : Option FloatParts :=
  let cs := s.data.dropWhile (·.isWhitespace)
  let (sign, cs) := splitSign cs
  let intDs := cs.takeWhile (·.isDigit)
  let rest := cs.dropWhile (·.isDigit)
  let fracDs :=
    match rest with
    | '.' :: after => after.takeWhile (·.isDigit)
    | _ => []
  if intDs.isEmpty && fracDs.isEmpty then none
  else some ⟨sign, digitsToNat intDs, digitsToNat fracDs, fracDs.length⟩

/-- The rational value denoted by a scanned decimal literal. -/
def FloatParts.val (p : FloatParts) : Rat :=
  (p.sign : Rat) * ((p.intPart : Rat) + (p.fracPart : Rat) / ((10 : Rat) ^ p.fracLen))

/-- Model of JavaScript `parseFloat(s)`; `none` models `NaN`. -/
def parseFloatJS (s : String) : Option Rat :=
  (parseFloatParts s).map FloatParts.val

/-- `parseFloat(x) || 0`: an unparseable (`NaN`) field contributes `0`. -/
def numOr0 (s : String) : Rat :=
  (parseFloatJS s).getD 0

/-- `Math.round(x * 100) / 100`: round to two decimals, halves towards
positive infinity. -/
def round2 (q : Rat) : Rat :=
  (⌊q * 100 + 1 / 2⌋ : Rat) / 100

/-! ## `deriveFilterDomain`: `suppliers`, `items`, `yearRange`
(DataChart.jsx lines 46–69) -/

/-- The distinct non-empty `SUPPLIER` values, sorted:
`Array.from(supplierSet).sort()`.  The truthiness guard
`if (row.SUPPLIER)` excludes empty (and missing) values. -/
def suppliers (rawData : List SalesRecord) : List String :=
  ((rawData.filterMap fun r => if r.supplier ≠ "" then some r.supplier else none).dedup).insertionSort (· ≤ ·)

/-- The distinct non-empty `ITEM DESCRIPTION` values, sorted. -/
def items (rawData : List SalesRecord) : List String :=
  ((rawData.filterMap fun r => if r.itemDescription ≠ "" then some r.itemDescription else none).dedup).insertionSort (· ≤ ·)

/-- The derived `{min, max}` year bound. -/
structure YearRange where
  min : Int
  max : Int
  deriving Repr, DecidableEq

/-- One step of the year min/max scan; `none` models the `Infinity` /
`-Infinity` sentinels (no parseable year seen yet). -/
def yearStep (mm : Option Int × Option Int) (r : SalesRecord) : Option Int × Option Int :=
  match parseIntJS r.year with
  | some y =>
      (some (match mm.1 with | none => y | some a => min a y),
       some (match mm.2 with | none => y | some b => max b y))
  | none => mm

/-- `yearStep` specialised to an already-parsed year (used to relate the
record scan to the list of parseable years). -/
def intStep (mm : Option Int × Option Int) (y : Int) : Option Int × Option Int :=
  (some (match mm.1 with | none => y | some a => min a y),
   some (match mm.2 with | none => y | some b => max b y))

/-- The year bound of the filter domain: min/max of the parseable `YEAR`
values, each falling back to a constant (2020 resp. 2024) when no year
parses; the empty record set short-circuits to the same constants. -/
def yearRange (rawData : List SalesRecord) : YearRange :=
  if rawData.isEmpty then ⟨2020, 2024⟩
  else
    let st := rawData.foldl yearStep (none, none)
    ⟨st.1.getD 2020, st.2.getD 2024⟩

/-! ## `filteredOptions` (lines 72–78) -/

/-- Model of JavaScript `toLowerCase()`: per-character lowering. -/
def lowerChars (s : String) : List Char :=
  s.data.map Char.toLower

/-- Model of JavaScript `haystack.includes(needle)` on character lists. -/
def charsInclude (needle : List Char) : List Char → Bool
  | [] => needle.isEmpty
  | c :: rest => needle.isPrefixOf (c :: rest) || charsInclude needle rest

/-- The option list backing the selection dropdown: the domain set chosen
by `filterType`, filtered by a case-insensitive substring search when
`searchTerm` is non-empty, capped at 100 entries. -/
def filteredOptions (suppliersL itemsL : List String) (filterType : FilterKind)
    (searchTerm : String) : List String :=
  let options := match filterType with
    | .supplier => suppliersL
    | .item => itemsL
  if searchTerm = "" then options.take 100
  else (options.filter fun opt => charsInclude (lowerChars searchTerm) (lowerChars opt)).take 100

/-! ## `isValidDateRange` (lines 81–85) -/

/-- The linear key `year * 12 + month` of a date cursor. -/
def dateKey (d : DateCursor) : Int :=
  d.year * 12 + d.month

/-- `end >= start` on linear keys. -/
def isValidDateRange (startDate endDate : DateCursor) : Bool :=
  dateKey endDate ≥ dateKey startDate

/-! ## `chartData` (lines 88–132) -/

/-- The record field named by `filterField`. -/
def filterField : FilterKind → SalesRecord → String
  | .supplier, r => r.supplier
  | .item, r => r.itemDescription

/-- The date-range part of the row filter: both `YEAR` and `MONTH` must
parse and the linear key must lie between the cursors (a `NaN` key fails
both JavaScript comparisons). -/
def passesRange (startDate endDate : DateCursor) (r : SalesRecord) : Bool :=
  match parseIntJS r.year, parseIntJS r.month with
  | some y, some m =>
      decide (dateKey startDate ≤ y * 12 + m ∧ y * 12 + m ≤ dateKey endDate)
  | _, _ => false

/-- The full row filter: exact match on the selected field, then the
date-range test. -/
def passesFilters (filterType : FilterKind) (selectedValue : String)
    (startDate endDate : DateCursor) (r : SalesRecord) : Bool :=
  filterField filterType r == selectedValue && passesRange startDate endDate r

/-- JavaScript `String(x).padStart(2, '0')`. -/
def padStart2 (s : String) : String :=
  if s.length < 2 then String.mk (List.replicate (2 - s.length) '0') ++ s else s

/-- The grouping key `` `${row.YEAR}-${String(row.MONTH).padStart(2, '0')}` ``,
built from the raw field strings. -/
def groupKey (r : SalesRecord) : String :=
  r.year ++ "-" ++ padStart2 r.month

/-- One output row: the month key and the three summed measures. -/
structure MonthlyAggregate where
  month : String
  retailSales : Rat
  warehouseSales : Rat
  retailTransfers : Rat
  deriving Repr, DecidableEq

/-- The zero-initialised group for a key. -/
def emptyAggregate (k : String) : MonthlyAggregate :=
  ⟨k, 0, 0, 0⟩

/-- Adds one record's three measures (`parseFloat(...) || 0`) to a group. -/
def addRecord (a : MonthlyAggregate) (r : SalesRecord) : MonthlyAggregate :=
  { a with
    retailSales := a.retailSales + numOr0 r.retailSales
    warehouseSales := a.warehouseSales + numOr0 r.warehouseSales
    retailTransfers := a.retailTransfers + numOr0 r.retailTransfers }

/-- Inserting one record into the `monthlyData` accumulator, modelled as a
key-ordered-by-insertion association list: the JavaScript object creates
the key on first sight (appending, in insertion order) and updates it
afterwards. -/
def upsert (r : SalesRecord) : List MonthlyAggregate → List MonthlyAggregate
  | [] => [addRecord (emptyAggregate (groupKey r)) r]
  | a :: rest =>
      if a.month = groupKey r then addRecord a r :: rest
      else a :: upsert r rest

/-- The `monthlyData` accumulation loop: `filtered.forEach(...)` over the
grouping object, read back in insertion order (`Object.values`). -/
def monthlyData (l : List SalesRecord) : List MonthlyAggregate :=
  l.foldl (fun acc r => upsert r acc) []

/-- The final per-group rounding of the three measures. -/
def roundAggregate (a : MonthlyAggregate) : MonthlyAggregate :=
  { a with
    retailSales := round2 a.retailSales
    warehouseSales := round2 a.warehouseSales
    retailTransfers := round2 a.retailTransfers }

/-- The full `chartData` pipeline: guard, row filter, grouping, sort by
month key, rounding. -/
def chartData (rawData : List SalesRecord) (filterType : FilterKind)
    (selectedValue : String) (startDate endDate : DateCursor) : List MonthlyAggregate :=
  if selectedValue == "" || rawData.isEmpty || !isValidDateRange startDate endDate then []
  else
    let filtered := rawData.filter (passesFilters filterType selectedValue startDate endDate)
    ((monthlyData filtered).insertionSort fun a b => a.month ≤ b.month).map roundAggregate

/-- Two local instances for sorting aggregates by their month key. -/
instance : IsTotal MonthlyAggregate fun a b => a.month ≤ b.month :=
  ⟨fun a b => le_total a.month b.month⟩

instance : IsTrans MonthlyAggregate fun a b => a.month ≤ b.month :=
  ⟨fun _ _ _ h1 h2 => le_trans h1 h2⟩

/-! ## Helper lemmas -/

theorem numOr0_eval (s : String) (p : FloatParts) (h : parseFloatParts s = some p) :
    numOr0 s = p.val := by
  simp [numOr0, parseFloatJS, h]

theorem addRecord_month (a : MonthlyAggregate) (r : SalesRecord) :
    (addRecord a r).month = a.month := rfl

theorem roundAggregate_month (a : MonthlyAggregate) :
    (roundAggregate a).month = a.month := rfl

theorem emptyAggregate_month (k : String) : (emptyAggregate k).month = k := rfl

theorem charsInclude_iff (n h : List Char) : charsInclude n h = true ↔ n <:+: h := by
  induction h with
  | nil => simp [charsInclude, List.isEmpty_iff]
  | cons c rest ih =>
    simp only [charsInclude, Bool.or_eq_true, List.isPrefixOf_iff_prefix, ih,
      List.infix_cons_iff]

theorem charsInclude_eq_decide (n h : List Char) :
    charsInclude n h = decide (n <:+: h) := by
  cases hc : charsInclude n h
  · have := (not_iff_not.mpr (charsInclude_iff n h)).mp (by simp [hc])
    simp [this]
  · simp [(charsInclude_iff n h).mp hc]

theorem distinctSortedStrings (xs : List String) :
    ((xs.dedup).insertionSort (· ≤ ·)).Nodup
    ∧ ((xs.dedup).insertionSort (· ≤ ·)).Sorted (· ≤ ·)
    ∧ ∀ y, y ∈ (xs.dedup).insertionSort (· ≤ ·) ↔ y ∈ xs := by
  refine ⟨(List.perm_insertionSort _ _).nodup_iff.mpr (List.nodup_dedup xs),
    List.sorted_insertionSort _ _, fun y => ?_⟩
  rw [(List.perm_insertionSort _ _).mem_iff, List.mem_dedup]

/-! ## Claim theorems -/

/-- C7: `isValidDateRange` holds exactly when the end cursor's linear key
`year*12 + month` is at least the start's; `{2020,1}`–`{2019,1}` is
invalid and the single-month range `{2020,1}`–`{2020,1}` is valid. -/
theorem specC7 :
    (∀ s e : DateCursor, isValidDateRange s e = true ↔
      e.year * 12 + e.month ≥ s.year * 12 + s.month)
    ∧ isValidDateRange ⟨2020, 1⟩ ⟨2019, 1⟩ = false
    ∧ isValidDateRange ⟨2020, 1⟩ ⟨2020, 1⟩ = true := by
  refine ⟨fun s e => ?_, by decide, by decide⟩
  simp [isValidDateRange, dateKey]

/-- C5: with an empty selection, an empty record set, or an invalid range,
`chartData` returns the empty list. -/
theorem specC5 (rawData : List SalesRecord) (ft : FilterKind) (sel : String)
    (s e : DateCursor)
    (h : sel = "" ∨ rawData = [] ∨ isValidDateRange s e = false) :
    chartData rawData ft sel s e = [] := by
  unfold chartData
  rcases h with h | h | h
  · simp [h]
  · simp [h]
  · simp [h]

theorem specC5_witness :
    chartData [⟨"Acme", "", "2019", "1", "10", "5", "0"⟩] .supplier ""
      ⟨2020, 1⟩ ⟨2019, 1⟩ = [] :=
  specC5 _ .supplier "" ⟨2020, 1⟩ ⟨2019, 1⟩ (Or.inl rfl)

/-- C1: the two-record "Acme" example aggregates to the single row
`{month := "2019-01", retailSales := 12.5, warehouseSales := 5,
retailTransfers := 1}`. -/
theorem specC1 :
    chartData
      [⟨"Acme", "", "2019", "1", "10", "5", "0"⟩,
       ⟨"Acme", "", "2019", "1", "2.5", "0", "1"⟩]
      .supplier "Acme" ⟨2019, 1⟩ ⟨2019, 12⟩
    = [⟨"2019-01", 12.5, 5, 1⟩] := by
  have h10 : numOr0 "10" = 10 := by
    rw [numOr0_eval "10" ⟨1, 10, 0, 0⟩ (by decide)]; norm_num [FloatParts.val]
  have h25 : numOr0 "2.5" = 5 / 2 := by
    rw [numOr0_eval "2.5" ⟨1, 2, 5, 1⟩ (by decide)]; norm_num [FloatParts.val]
  have h5 : numOr0 "5" = 5 := by
    rw [numOr0_eval "5" ⟨1, 5, 0, 0⟩ (by decide)]; norm_num [FloatParts.val]
  have h0 : numOr0 "0" = 0 := by
    rw [numOr0_eval "0" ⟨1, 0, 0, 0⟩ (by decide)]; norm_num [FloatParts.val]
  have h1 : numOr0 "1" = 1 := by
    rw [numOr0_eval "1" ⟨1, 1, 0, 0⟩ (by decide)]; norm_num [FloatParts.val]
  have hpass1 : passesFilters .supplier "Acme" ⟨2019, 1⟩ ⟨2019, 12⟩
      ⟨"Acme", "", "2019", "1", "10", "5", "0"⟩ = true := by decide
  have hpass2 : passesFilters .supplier "Acme" ⟨2019, 1⟩ ⟨2019, 12⟩
      ⟨"Acme", "", "2019", "1", "2.5", "0", "1"⟩ = true := by decide
  have hkey1 : groupKey ⟨"Acme", "", "2019", "1", "10", "5", "0"⟩ = "2019-01" := by decide
  have hkey2 : groupKey ⟨"Acme", "", "2019", "1", "2.5", "0", "1"⟩ = "2019-01" := by decide
  have hvalid : isValidDateRange ⟨2019, 1⟩ ⟨2019, 12⟩ = true := by decide
  simp [chartData, List.filter, hpass1, hpass2, monthlyData, upsert, addRecord,
    emptyAggregate, roundAggregate, List.insertionSort, List.orderedInsert,
    hkey1, hkey2, hvalid, h10, h25, h5, h0, h1, round2]
  norm_num

/-- C6 counterexample: searching `"ac"` over `["Acme","Ajax","Beta"]` does
not return `["Acme","Ajax"]` ("Ajax" does not contain the substring
"ac"). -/
theorem specC6_counterexample :
    filteredOptions ["Acme", "Ajax", "Beta"] [] .supplier "ac" ≠ ["Acme", "Ajax"] := by
  decide

/-- C6 (amended): the search returns `["Acme"]`; in general a non-empty
search term keeps exactly the options whose lower-cased text contains the
lower-cased term as an infix, in domain order, capped at 100. -/
theorem specC6_thm :
    filteredOptions ["Acme", "Ajax", "Beta"] [] .supplier "ac" = ["Acme"]
    ∧ ∀ (sups its : List String) (ft : FilterKind) (st : String), st ≠ "" →
        filteredOptions sups its ft st =
          ((match ft with | .supplier => sups | .item => its).filter
            fun o => decide (lowerChars st <:+: lowerChars o)).take 100 := by
  refine ⟨by decide, fun sups its ft st hst => ?_⟩
  unfold filteredOptions
  rw [if_neg hst]
  congr 1
  apply List.filter_congr
  intro o _
  rw [charsInclude_eq_decide]

theorem specC6_witness :
    filteredOptions ["Acme", "Ajax", "Beta"] [] .supplier "ac" =
      (["Acme", "Ajax", "Beta"].filter
        fun o => decide (lowerChars "ac" <:+: lowerChars o)).take 100 :=
  specC6_thm.2 ["Acme", "Ajax", "Beta"] [] .supplier "ac" (by decide)

/-- C8: the supplier and item domains are duplicate-free, sorted
lexicographically, and exclude the empty (missing) value. -/
theorem specC8 (rawData : List SalesRecord) :
    ((suppliers rawData).Nodup ∧ (suppliers rawData).Sorted (· ≤ ·)
      ∧ "" ∉ suppliers rawData)
    ∧ ((items rawData).Nodup ∧ (items rawData).Sorted (· ≤ ·)
      ∧ "" ∉ items rawData) := by
  have hs := distinctSortedStrings
    (rawData.filterMap fun r => if r.supplier ≠ "" then some r.supplier else none)
  have hi := distinctSortedStrings
    (rawData.filterMap fun r => if r.itemDescription ≠ "" then some r.itemDescription else none)
  unfold suppliers items
  refine ⟨⟨hs.1, hs.2.1, ?_⟩, ⟨hi.1, hi.2.1, ?_⟩⟩
  · rw [hs.2.2]
    intro hmem
    rcases List.mem_filterMap.mp hmem with ⟨r, _, hr⟩
    by_cases h : r.supplier = "" <;> simp [h] at hr
  · rw [hi.2.2]
    intro hmem
    rcases List.mem_filterMap.mp hmem with ⟨r, _, hr⟩
    by_cases h : r.itemDescription = "" <;> simp [h] at hr

theorem upsert_months (r : SalesRecord) (l : List MonthlyAggregate) :
    (upsert r l).map (·.month) =
      if groupKey r ∈ l.map (·.month) then l.map (·.month)
      else l.map (·.month) ++ [groupKey r] := by
  induction l with
  | nil => simp [upsert, addRecord_month, emptyAggregate_month]
  | cons a rest ih =>
    by_cases h : a.month = groupKey r
    · simp [upsert, h, addRecord_month]
    · have hne : ¬ groupKey r = a.month := fun hh => h hh.symm
      by_cases hmem : groupKey r ∈ rest.map (·.month)
      · simp [upsert, h, ih, hmem, hne]
      · simp [upsert, h, ih, hmem, hne]

theorem upsert_months_nodup (r : SalesRecord) (l : List MonthlyAggregate)
    (h : (l.map (·.month)).Nodup) : ((upsert r l).map (·.month)).Nodup := by
  rw [upsert_months]
  by_cases hmem : groupKey r ∈ l.map (·.month)
  · simpa [hmem] using h
  · simp [hmem, List.nodup_append, h]

theorem foldl_upsert_months_nodup (l : List SalesRecord) (acc : List MonthlyAggregate)
    (h : (acc.map (·.month)).Nodup) :
    (((l.foldl (fun acc r => upsert r acc) acc)).map (·.month)).Nodup := by
  induction l generalizing acc with
  | nil => simpa using h
  | cons r rest ih => exact ih _ (upsert_months_nodup r acc h)

theorem monthlyData_months_nodup (l : List SalesRecord) :
    ((monthlyData l).map (·.month)).Nodup :=
  foldl_upsert_months_nodup l [] (by simp)

theorem upsert_month_mem (r : SalesRecord) (l : List MonthlyAggregate) (a : MonthlyAggregate)
    (ha : a ∈ upsert r l) : a.month ∈ l.map (·.month) ∨ a.month = groupKey r := by
  have : a.month ∈ (upsert r l).map (·.month) := List.mem_map_of_mem _ ha
  rw [upsert_months] at this
  by_cases hmem : groupKey r ∈ l.map (·.month)
  · rw [if_pos hmem] at this; exact Or.inl this
  · rw [if_neg hmem] at this
    rcases List.mem_append.mp this with h | h
    · exact Or.inl h
    · exact Or.inr (by simpa using h)

theorem foldl_upsert_month_origin (l : List SalesRecord) (acc : List MonthlyAggregate)
    (a : MonthlyAggregate) (ha : a ∈ l.foldl (fun acc r => upsert r acc) acc) :
    a.month ∈ acc.map (·.month) ∨ ∃ r ∈ l, groupKey r = a.month := by
  induction l generalizing acc with
  | nil => exact Or.inl (List.mem_map_of_mem _ ha)
  | cons r rest ih =>
    rcases ih (upsert r acc) ha with h | h
    · rw [upsert_months] at h
      by_cases hmem : groupKey r ∈ acc.map (·.month)
      · rw [if_pos hmem] at h; exact Or.inl h
      · rw [if_neg hmem] at h
        rcases List.mem_append.mp h with h | h
        · exact Or.inl h
        · exact Or.inr ⟨r, by simp, by
            have : a.month = groupKey r := by simpa using h
            exact this.symm⟩
    · rcases h with ⟨r', hr', hk⟩
      exact Or.inr ⟨r', by simp [hr'], hk⟩

theorem monthlyData_month_origin (l : List SalesRecord) (a : MonthlyAggregate)
    (ha : a ∈ monthlyData l) : ∃ r ∈ l, groupKey r = a.month := by
  rcases foldl_upsert_month_origin l [] a ha with h | h
  · simp at h
  · exact h

theorem chartData_month_origin (rawData : List SalesRecord) (ft : FilterKind)
    (sel : String) (s e : DateCursor) (a : MonthlyAggregate)
    (ha : a ∈ chartData rawData ft sel s e) :
    ∃ r ∈ rawData.filter (passesFilters ft sel s e), groupKey r = a.month := by
  unfold chartData at ha
  split at ha
  · simp at ha
  · rcases List.mem_map.mp ha with ⟨b, hb, hab⟩
    have hb' : b ∈ monthlyData (rawData.filter (passesFilters ft sel s e)) :=
      (List.perm_insertionSort _ _).mem_iff.mp hb
    rcases monthlyData_month_origin _ b hb' with ⟨r, hr, hk⟩
    exact ⟨r, hr, by rw [hk, ← hab, roundAggregate_month]⟩

/-- C2: every record surviving the row filter has a parseable year and
month whose linear key lies inclusively between the cursors; a record
with an unparseable year or month always fails the range test; and every
output month key originates from a surviving record (so no output key
lies outside the requested range). -/
theorem specC2 (rawData : List SalesRecord) (ft : FilterKind) (sel : String)
    (s e : DateCursor) :
    (∀ r ∈ rawData.filter (passesFilters ft sel s e),
      ∃ y m, parseIntJS r.year = some y ∧ parseIntJS r.month = some m ∧
        dateKey s ≤ y * 12 + m ∧ y * 12 + m ≤ dateKey e)
    ∧ (∀ r : SalesRecord, parseIntJS r.year = none ∨ parseIntJS r.month = none →
        passesRange s e r = false)
    ∧ ∀ a ∈ chartData rawData ft sel s e,
        ∃ r ∈ rawData.filter (passesFilters ft sel s e), groupKey r = a.month := by
  refine ⟨fun r hr => ?_, fun r hr => ?_,
    fun a ha => chartData_month_origin rawData ft sel s e a ha⟩
  · have hp := (List.mem_filter.mp hr).2
    have hrange : passesRange s e r = true := by
      unfold passesFilters at hp
      exact ((Bool.and_eq_true _ _).mp hp).2
    unfold passesRange at hrange
    cases hy : parseIntJS r.year with
    | none => rw [hy] at hrange; simp at hrange
    | some y =>
      cases hm : parseIntJS r.month with
      | none => rw [hy, hm] at hrange; simp at hrange
      | some m =>
        rw [hy, hm] at hrange
        simp only [decide_eq_true_eq] at hrange
        exact ⟨y, m, rfl, rfl, hrange.1, hrange.2⟩
  · unfold passesRange
    cases hy : parseIntJS r.year with
    | none => simp
    | some y =>
      rcases hr with h | h
      · rw [hy] at h; cases h
      · rw [h]

theorem specC2_witness :
    passesRange ⟨2019, 1⟩ ⟨2019, 12⟩ ⟨"Acme", "", "2019", "N/A", "1", "0", "0"⟩ = false :=
  (specC2 [] .supplier "Acme" ⟨2019, 1⟩ ⟨2019, 12⟩).2.1
    ⟨"Acme", "", "2019", "N/A", "1", "0", "0"⟩ (Or.inr (by decide))

/-- C4: the output of `chartData` is strictly increasing in the month-key
string (hence chronologically ordered with no duplicate month keys), and
every output row's key is the group key of some record surviving both
filters (months without matching records are absent, never
zero-filled). -/
theorem specC4 (rawData : List SalesRecord) (ft : FilterKind) (sel : String)
    (s e : DateCursor) :
    (chartData rawData ft sel s e).Pairwise (fun a b => a.month < b.month)
    ∧ ∀ a ∈ chartData rawData ft sel s e,
        ∃ r ∈ rawData.filter (passesFilters ft sel s e), groupKey r = a.month := by
  refine ⟨?_, fun a ha => chartData_month_origin rawData ft sel s e a ha⟩
  unfold chartData
  split
  · simp
  · have hSorted :
        ((monthlyData (rawData.filter (passesFilters ft sel s e))).insertionSort
          fun a b => a.month ≤ b.month).Pairwise fun a b => a.month ≤ b.month :=
      List.sorted_insertionSort _ _
    have hperm :
        List.Perm
          ((monthlyData (rawData.filter (passesFilters ft sel s e))).insertionSort
            fun a b => a.month ≤ b.month)
          (monthlyData (rawData.filter (passesFilters ft sel s e))) :=
      List.perm_insertionSort _ _
    have hNodup :
        (((monthlyData (rawData.filter (passesFilters ft sel s e))).insertionSort
          fun a b => a.month ≤ b.month).map (·.month)).Nodup :=
      ((hperm.map (·.month)).nodup_iff).mpr
        (monthlyData_months_nodup (rawData.filter (passesFilters ft sel s e)))
    have hNe :
        ((monthlyData (rawData.filter (passesFilters ft sel s e))).insertionSort
          fun a b => a.month ≤ b.month).Pairwise fun a b => a.month ≠ b.month := by
      simpa [List.Nodup, List.pairwise_map] using hNodup
    have hLt := (hSorted.and hNe).imp
      (fun h => lt_of_le_of_ne h.1 h.2)
    rw [List.pairwise_map]
    exact hLt.imp fun h => by simpa [roundAggregate_month] using h

theorem specC4_witness :
    ∃ r ∈ [(⟨"A", "", "2019", "1", "1", "0", "0"⟩ : SalesRecord)].filter
        (passesFilters .supplier "A" ⟨2019, 1⟩ ⟨2019, 1⟩),
      groupKey r = (⟨"2019-01", 1, 0, 0⟩ : MonthlyAggregate).month := by
  have h1 : numOr0 "1" = 1 := by
    rw [numOr0_eval "1" ⟨1, 1, 0, 0⟩ (by decide)]; norm_num [FloatParts.val]
  have h0 : numOr0 "0" = 0 := by
    rw [numOr0_eval "0" ⟨1, 0, 0, 0⟩ (by decide)]; norm_num [FloatParts.val]
  have hpass : passesFilters .supplier "A" ⟨2019, 1⟩ ⟨2019, 1⟩
      ⟨"A", "", "2019", "1", "1", "0", "0"⟩ = true := by decide
  have hkey : groupKey ⟨"A", "", "2019", "1", "1", "0", "0"⟩ = "2019-01" := by decide
  have hvalid : isValidDateRange ⟨2019, 1⟩ ⟨2019, 1⟩ = true := by decide
  have hc : chartData [⟨"A", "", "2019", "1", "1", "0", "0"⟩] .supplier "A"
      ⟨2019, 1⟩ ⟨2019, 1⟩ = [⟨"2019-01", 1, 0, 0⟩] := by
    simp [chartData, List.filter, hpass, monthlyData, upsert, addRecord, emptyAggregate,
      roundAggregate, List.insertionSort, List.orderedInsert, hkey, hvalid, h1, h0, round2]
    norm_num
  exact (specC4 _ .supplier "A" ⟨2019, 1⟩ ⟨2019, 1⟩).2 ⟨"2019-01", 1, 0, 0⟩
    (by rw [hc]; simp)

theorem upsert_sum (g : MonthlyAggregate → Rat) (f : SalesRecord → Rat)
    (hadd : ∀ a r, g (addRecord a r) = g a + f r)
    (hzero : ∀ k, g (emptyAggregate k) = 0)
    (r : SalesRecord) (l : List MonthlyAggregate) :
    ((upsert r l).map g).sum = (l.map g).sum + f r := by
  induction l with
  | nil => simp [upsert, hadd, hzero]
  | cons a rest ih =>
    by_cases h : a.month = groupKey r
    · simp [upsert, h, hadd]; ring
    · simp [upsert, h, ih]; ring

theorem foldl_upsert_sum (g : MonthlyAggregate → Rat) (f : SalesRecord → Rat)
    (hadd : ∀ a r, g (addRecord a r) = g a + f r)
    (hzero : ∀ k, g (emptyAggregate k) = 0)
    (l : List SalesRecord) (acc : List MonthlyAggregate) :
    ((l.foldl (fun acc r => upsert r acc) acc).map g).sum
      = (acc.map g).sum + (l.map f).sum := by
  induction l generalizing acc with
  | nil => simp
  | cons r rest ih =>
    simp only [List.foldl_cons, List.map_cons, List.sum_cons]
    rw [ih (upsert r acc), upsert_sum g f hadd hzero r acc]
    ring

theorem monthlyData_sum (g : MonthlyAggregate → Rat) (f : SalesRecord → Rat)
    (hadd : ∀ a r, g (addRecord a r) = g a + f r)
    (hzero : ∀ k, g (emptyAggregate k) = 0)
    (l : List SalesRecord) :
    ((monthlyData l).map g).sum = (l.map f).sum := by
  simpa using foldl_upsert_sum g f hadd hzero l []

/-- C3 counterexample: a single surviving record with `retailSales`
`"0.004"` sums to `1/250` on the input side, but the returned aggregate
is rounded to `0`, so the sums differ. -/
theorem specC3_counterexample :
    ¬ (((chartData [⟨"Acme", "", "2019", "1", "0.004", "0", "0"⟩] .supplier "Acme"
          ⟨2019, 1⟩ ⟨2019, 12⟩).map (·.retailSales)).sum
        = (([(⟨"Acme", "", "2019", "1", "0.004", "0", "0"⟩ : SalesRecord)].filter
            (passesFilters .supplier "Acme" ⟨2019, 1⟩ ⟨2019, 12⟩)).map
            fun r => numOr0 r.retailSales).sum) := by
  have h004 : numOr0 "0.004" = 1 / 250 := by
    rw [numOr0_eval "0.004" ⟨1, 0, 4, 3⟩ (by decide)]; norm_num [FloatParts.val]
  have h0 : numOr0 "0" = 0 := by
    rw [numOr0_eval "0" ⟨1, 0, 0, 0⟩ (by decide)]; norm_num [FloatParts.val]
  have hpass : passesFilters .supplier "Acme" ⟨2019, 1⟩ ⟨2019, 12⟩
      ⟨"Acme", "", "2019", "1", "0.004", "0", "0"⟩ = true := by decide
  have hkey : groupKey ⟨"Acme", "", "2019", "1", "0.004", "0", "0"⟩ = "2019-01" := by decide
  have hvalid : isValidDateRange ⟨2019, 1⟩ ⟨2019, 12⟩ = true := by decide
  simp [chartData, List.filter, hpass, monthlyData, upsert, addRecord, emptyAggregate,
    roundAggregate, List.insertionSort, List.orderedInsert, hkey, hvalid, h004, h0, round2]
  norm_num

/-- C3 (amended): before the final rounding, each measure's sum over the
month groups equals its sum over the records passing both filters
(unparseable fields contributing 0); the returned series carries the
rounded group sums, so its sum equals the sum of the rounded values. -/
theorem specC3_thm (rawData : List SalesRecord) (ft : FilterKind) (sel : String)
    (s e : DateCursor) (h1 : sel ≠ "") (h2 : rawData ≠ [])
    (h3 : isValidDateRange s e = true) :
    (((chartData rawData ft sel s e).map (·.retailSales)).sum
        = ((monthlyData (rawData.filter (passesFilters ft sel s e))).map
            fun a => round2 a.retailSales).sum
      ∧ ((monthlyData (rawData.filter (passesFilters ft sel s e))).map (·.retailSales)).sum
        = ((rawData.filter (passesFilters ft sel s e)).map fun r => numOr0 r.retailSales).sum)
    ∧ (((chartData rawData ft sel s e).map (·.warehouseSales)).sum
        = ((monthlyData (rawData.filter (passesFilters ft sel s e))).map
            fun a => round2 a.warehouseSales).sum
      ∧ ((monthlyData (rawData.filter (passesFilters ft sel s e))).map (·.warehouseSales)).sum
        = ((rawData.filter (passesFilters ft sel s e)).map fun r => numOr0 r.warehouseSales).sum)
    ∧ (((chartData rawData ft sel s e).map (·.retailTransfers)).sum
        = ((monthlyData (rawData.filter (passesFilters ft sel s e))).map
            fun a => round2 a.retailTransfers).sum
      ∧ ((monthlyData (rawData.filter (passesFilters ft sel s e))).map (·.retailTransfers)).sum
        = ((rawData.filter (passesFilters ft sel s e)).map fun r => numOr0 r.retailTransfers).sum) := by
  have hguard : (sel == "" || rawData.isEmpty || !isValidDateRange s e) = false := by
    simp [h1, h2, h3, List.isEmpty_iff]
  have hchart : chartData rawData ft sel s e =
      ((monthlyData (rawData.filter (passesFilters ft sel s e))).insertionSort
        fun a b => a.month ≤ b.month).map roundAggregate := by
    unfold chartData
    rw [hguard]
    simp
  have hperm :
      List.Perm
        ((monthlyData (rawData.filter (passesFilters ft sel s e))).insertionSort
          fun a b => a.month ≤ b.month)
        (monthlyData (rawData.filter (passesFilters ft sel s e))) :=
    List.perm_insertionSort _ _
  refine ⟨⟨?_, ?_⟩, ⟨?_, ?_⟩, ⟨?_, ?_⟩⟩
  · rw [hchart, List.map_map]
    exact (hperm.map fun a => round2 a.retailSales).sum_eq
  · exact monthlyData_sum _ _ (fun a r => by simp [addRecord]) (fun k => rfl) _
  · rw [hchart, List.map_map]
    exact (hperm.map fun a => round2 a.warehouseSales).sum_eq
  · exact monthlyData_sum _ _ (fun a r => by simp [addRecord]) (fun k => rfl) _
  · rw [hchart, List.map_map]
    exact (hperm.map fun a => round2 a.retailTransfers).sum_eq
  · exact monthlyData_sum _ _ (fun a r => by simp [addRecord]) (fun k => rfl) _

theorem specC3_witness :
    ((monthlyData ([(⟨"Acme", "", "2019", "1", "0.004", "0", "0"⟩ : SalesRecord)].filter
        (passesFilters .supplier "Acme" ⟨2019, 1⟩ ⟨2019, 12⟩))).map (·.retailSales)).sum
      = (([(⟨"Acme", "", "2019", "1", "0.004", "0", "0"⟩ : SalesRecord)].filter
          (passesFilters .supplier "Acme" ⟨2019, 1⟩ ⟨2019, 12⟩)).map
          fun r => numOr0 r.retailSales).sum :=
  (specC3_thm [⟨"Acme", "", "2019", "1", "0.004", "0", "0"⟩] .supplier "Acme"
    ⟨2019, 1⟩ ⟨2019, 12⟩ (by decide) (by decide) (by decide)).1.2

theorem foldl_yearStep_filterMap (l : List SalesRecord) (mm : Option Int × Option Int) :
    l.foldl yearStep mm = (l.filterMap fun r => parseIntJS r.year).foldl intStep mm := by
  induction l generalizing mm with
  | nil => rfl
  | cons r rest ih =>
    cases h : parseIntJS r.year <;>
      simp [List.foldl_cons, List.filterMap_cons, h, yearStep, intStep, ih]

theorem foldl_intStep_some (ys : List Int) (a b : Int) :
    ys.foldl intStep (some a, some b) = (some (ys.foldl min a), some (ys.foldl max b)) := by
  induction ys generalizing a b with
  | nil => rfl
  | cons y rest ih => simp [List.foldl_cons, intStep, ih]

theorem foldl_min_mem (ys : List Int) (a : Int) : ys.foldl min a ∈ a :: ys := by
  induction ys generalizing a with
  | nil => simp
  | cons y rest ih =>
    simp only [List.foldl_cons]
    rcases List.mem_cons.mp (ih (min a y)) with h | h
    · rw [h]
      rcases min_choice a y with h' | h' <;> rw [h']
      · exact List.mem_cons_self _ _
      · exact List.mem_cons_of_mem _ (List.mem_cons_self _ _)
    · exact List.mem_cons_of_mem _ (List.mem_cons_of_mem _ h)

theorem foldl_max_mem (ys : List Int) (a : Int) : ys.foldl max a ∈ a :: ys := by
  induction ys generalizing a with
  | nil => simp
  | cons y rest ih =>
    simp only [List.foldl_cons]
    rcases List.mem_cons.mp (ih (max a y)) with h | h
    · rw [h]
      rcases max_choice a y with h' | h' <;> rw [h']
      · exact List.mem_cons_self _ _
      · exact List.mem_cons_of_mem _ (List.mem_cons_self _ _)
    · exact List.mem_cons_of_mem _ (List.mem_cons_of_mem _ h)

theorem foldl_min_le (ys : List Int) (a : Int) : ∀ y ∈ a :: ys, ys.foldl min a ≤ y := by
  induction ys generalizing a with
  | nil =>
    intro y hy
    simp only [List.mem_singleton] at hy
    simp [hy]
  | cons z rest ih =>
    intro y hy
    simp only [List.foldl_cons]
    rcases List.mem_cons.mp hy with h | h
    · calc rest.foldl min (min a z) ≤ min a z := ih (min a z) _ (List.mem_cons_self _ _)
        _ ≤ a := min_le_left _ _
        _ = y := by rw [h]
    · rcases List.mem_cons.mp h with h' | h'
      · calc rest.foldl min (min a z) ≤ min a z := ih (min a z) _ (List.mem_cons_self _ _)
          _ ≤ z := min_le_right _ _
          _ = y := by rw [h']
      · exact ih (min a z) y (List.mem_cons_of_mem _ h')

theorem le_foldl_max (ys : List Int) (a : Int) : ∀ y ∈ a :: ys, y ≤ ys.foldl max a := by
  induction ys generalizing a with
  | nil =>
    intro y hy
    simp only [List.mem_singleton] at hy
    simp [hy]
  | cons z rest ih =>
    intro y hy
    simp only [List.foldl_cons]
    rcases List.mem_cons.mp hy with h | h
    · calc y = a := h
        _ ≤ max a z := le_max_left _ _
        _ ≤ rest.foldl max (max a z) := ih (max a z) _ (List.mem_cons_self _ _)
    · rcases List.mem_cons.mp h with h' | h'
      · calc y = z := h'
          _ ≤ max a z := le_max_right _ _
          _ ≤ rest.foldl max (max a z) := ih (max a z) _ (List.mem_cons_self _ _)
      · exact ih (max a z) y (List.mem_cons_of_mem _ h')

/-- C9: the derived year bound always satisfies `min ≤ max`; when at
least one record's year parses, the bound is the minimum and maximum of
the parseable years; when none parses (including the empty record set),
it is the constant fallback window `{2020, 2024}`. -/
theorem specC9 (rawData : List SalesRecord) :
    (yearRange rawData).min ≤ (yearRange rawData).max
    ∧ ((rawData.filterMap fun r => parseIntJS r.year) = [] →
        yearRange rawData = ⟨2020, 2024⟩)
    ∧ ((rawData.filterMap fun r => parseIntJS r.year) ≠ [] →
        ((yearRange rawData).min ∈ rawData.filterMap fun r => parseIntJS r.year)
        ∧ ((yearRange rawData).max ∈ rawData.filterMap fun r => parseIntJS r.year)
        ∧ ∀ y ∈ rawData.filterMap fun r => parseIntJS r.year,
            (yearRange rawData).min ≤ y ∧ y ≤ (yearRange rawData).max) := by
  cases rawData with
  | nil =>
    refine ⟨by norm_num [yearRange], fun _ => rfl, fun h => absurd rfl h⟩
  | cons r rest =>
    have hne : ((r :: rest) : List SalesRecord).isEmpty = false := rfl
    have hyr : yearRange (r :: rest) =
        ⟨(((r :: rest).filterMap fun r => parseIntJS r.year).foldl intStep (none, none)).1.getD 2020,
         (((r :: rest).filterMap fun r => parseIntJS r.year).foldl intStep (none, none)).2.getD 2024⟩ := by
      unfold yearRange
      rw [hne, foldl_yearStep_filterMap]
      rfl
    cases hys : (r :: rest).filterMap fun r => parseIntJS r.year with
    | nil =>
      rw [hys] at hyr
      exact ⟨by rw [hyr]; norm_num, fun _ => hyr, fun h => absurd rfl h⟩
    | cons y ys =>
      rw [hys] at hyr
      have hfold : ((y :: ys).foldl intStep (none, none)) =
          (some (ys.foldl min y), some (ys.foldl max y)) := by
        rw [List.foldl_cons]
        have : intStep (none, none) y = (some y, some y) := rfl
        rw [this, foldl_intStep_some]
      rw [hfold] at hyr
      simp only [Option.getD_some] at hyr
      have hmin_mem : (yearRange (r :: rest)).min ∈ y :: ys := by
        rw [hyr]; exact foldl_min_mem ys y
      have hmax_mem : (yearRange (r :: rest)).max ∈ y :: ys := by
        rw [hyr]; exact foldl_max_mem ys y
      have hmin_le : ∀ z ∈ y :: ys, (yearRange (r :: rest)).min ≤ z := by
        rw [hyr]; exact foldl_min_le ys y
      have hle_max : ∀ z ∈ y :: ys, z ≤ (yearRange (r :: rest)).max := by
        rw [hyr]; exact le_foldl_max ys y
      refine ⟨le_trans (hmin_le y (List.mem_cons_self _ _))
          (hle_max y (List.mem_cons_self _ _)),
        fun h => absurd h (List.cons_ne_nil y ys), fun _ => ?_⟩
      exact ⟨hmin_mem, hmax_mem, fun z hz => ⟨hmin_le z hz, hle_max z hz⟩⟩

theorem specC9_witness : yearRange [] = ⟨2020, 2024⟩ :=
  (specC9 []).2.1 rfl

/-- C10: the range filter never checks that the month lies in 1..12 —
inclusion depends only on the linear key `year*12 + month`, so a record
with month 13 in year `y` is treated exactly like month 1 of year `y+1`,
and such a record produces its own `"YYYY-13"` group key in the
output. -/
theorem specC10 :
    (∀ (s e : DateCursor) (y : Int) (r13 r1 : SalesRecord),
      parseIntJS r13.year = some y → parseIntJS r13.month = some 13 →
      parseIntJS r1.year = some (y + 1) → parseIntJS r1.month = some 1 →
      passesRange s e r13 = passesRange s e r1)
    ∧ chartData [⟨"Acme", "", "2019", "13", "1", "0", "0"⟩] .supplier "Acme"
        ⟨2019, 1⟩ ⟨2020, 1⟩ = [⟨"2019-13", 1, 0, 0⟩] := by
  constructor
  · intro s e y r13 r1 h1 h2 h3 h4
    unfold passesRange
    rw [h1, h2, h3, h4]
    have hk : y * 12 + 13 = (y + 1) * 12 + 1 := by ring
    show decide (dateKey s ≤ y * 12 + 13 ∧ y * 12 + 13 ≤ dateKey e)
        = decide (dateKey s ≤ (y + 1) * 12 + 1 ∧ (y + 1) * 12 + 1 ≤ dateKey e)
    rw [hk]
  · have h1 : numOr0 "1" = 1 := by
      rw [numOr0_eval "1" ⟨1, 1, 0, 0⟩ (by decide)]; norm_num [FloatParts.val]
    have h0 : numOr0 "0" = 0 := by
      rw [numOr0_eval "0" ⟨1, 0, 0, 0⟩ (by decide)]; norm_num [FloatParts.val]
    have hpass : passesFilters .supplier "Acme" ⟨2019, 1⟩ ⟨2020, 1⟩
        ⟨"Acme", "", "2019", "13", "1", "0", "0"⟩ = true := by decide
    have hkey : groupKey ⟨"Acme", "", "2019", "13", "1", "0", "0"⟩ = "2019-13" := by decide
    have hvalid : isValidDateRange ⟨2019, 1⟩ ⟨2020, 1⟩ = true := by decide
    simp [chartData, List.filter, hpass, monthlyData, upsert, addRecord, emptyAggregate,
      roundAggregate, List.insertionSort, List.orderedInsert, hkey, hvalid, h1, h0, round2]
    norm_num

theorem specC10_witness :
    passesRange ⟨2019, 1⟩ ⟨2020, 1⟩ ⟨"Acme", "", "2019", "13", "1", "0", "0"⟩
      = passesRange ⟨2019, 1⟩ ⟨2020, 1⟩ ⟨"Acme", "", "2020", "1", "1", "0", "0"⟩ :=
  specC10.1 ⟨2019, 1⟩ ⟨2020, 1⟩ 2019
    ⟨"Acme", "", "2019", "13", "1", "0", "0"⟩ ⟨"Acme", "", "2020", "1", "1", "0", "0"⟩
    (by decide) (by decide) (by decide) (by decide)
